import Mathlib

/-!
Verification of the reading-order reconstruction core of the Five-Eyes backend.

The embedded code (coordinates and confidences as `ℚ`, texts as `String`):
- `Backend/services/ocr_service.py`: `sort_text_with_bbox`, `cluster_columns_dbscan`,
  `find_nearest_cluster`, the confidence aggregation of `run_paddle_ocr_analysis` /
  `analyze_with_paddle`;
- `Backend/PaddleOCR/PaddleOCR.py`: the standalone variants of the same functions
  (no try/except around the clustering);
- `Backend/Assets/AzureOCR/AzureOCR.py`: `group_words_by_vertical_lines`;
- `Backend/services/azure_ocr_service.py` / `paddle_ocr_service.py`: `_process_azure_result`,
  `_process_paddle_result`;
- `Backend/utils/text_processing.py`: `HistoricalDocumentTextProcessor`.

Python's `list.sort` / `sorted` (Timsort) is modelled by the stable insertion sort
`sortByKey`; `sklearn.cluster.DBSCAN` with `min_samples = 1` on 1-D data is modelled by
`dbscanLabels` (see its doc comment); Python dicts are association lists in key-insertion
order; exceptions are modelled with `Except` where the code does not catch them.
-/

namespace FiveEyes

variable {α β : Type*}

/-- Stable insertion into a list sorted ascending by `key`: the new element goes after every
element whose key is not greater, so elements with equal keys keep their arrival order.
Together with `sortByKey` this models the stability guarantee of Python's `list.sort`. -/
def insertSorted (key : α → ℚ) (a : α) : List α → List α
  | [] => [a]
  | b :: bs => if key a < key b then a :: b :: bs else b :: insertSorted key a bs

/-- Stable ascending sort by a rational key, modelling Python `list.sort(key=...)` /
`sorted(..., key=...)`. -/
def sortByKey (key : α → ℚ) (l : List α) : List α :=
  l.foldl (fun acc a => insertSorted key a acc) []

/-- One entry of the `text_boxes` list built at the top of `sort_text_with_bbox`
(ocr_service.py lines 112-128): text, box center, height, the raw box and the
`enumerate` index. -/
structure TextBox where
  text : String
  center_x : ℚ
  center_y : ℚ
  height : ℚ
  box : List ℚ
  index : Nat
deriving Repr, DecidableEq

/-- ocr_service.py lines 112-128: zip `rec_boxes` with `rec_texts`; each box is
`(x1, y1, x2, y2)`, the center is the midpoint and `index` the `enumerate` position. -/
def build_text_boxes (boxes : List (ℚ × ℚ × ℚ × ℚ)) (texts : List String) : List TextBox :=
  (boxes.zip texts).enum.map fun ip =>
    match ip with
    | (i, ((x1, y1, x2, y2), t)) =>
      { text := t, center_x := (x1 + x2) / 2, center_y := (y1 + y2) / 2,
        height := y2 - y1, box := [x1, y1, x2, y2], index := i }

/-- One expansion step of eps-neighbourhood reachability over the 1-D dataset `xs`: the
indices already in `s` together with every index of `xs` within `eps` of some member of `s`. -/
def nbrStep (eps : ℚ) (xs : List ℚ) (s : List Nat) : List Nat :=
  (List.range xs.length).filter fun j =>
    s.contains j || s.any fun i => decide (|xs.getD i 0 - xs.getD j 0| ≤ eps)

/-- All indices eps-chain connected to `i`: iterating `nbrStep` `xs.length` times reaches the
whole connected component, since every step that is not yet at a fixed point adds at least one
of the at most `xs.length` indices. -/
def reach (eps : ℚ) (xs : List ℚ) (i : Nat) : List Nat :=
  (nbrStep eps xs)^[xs.length] [i]

/-- Least index in the eps-chain component of `i` (the component's first occurrence in the
data scan order). -/
def compMin (eps : ℚ) (xs : List ℚ) (i : Nat) : Nat :=
  (reach eps xs i).foldl Nat.min i

/-- The first occurrences of a list's values, in order of first appearance. -/
def firstDedup : List Nat → List Nat
  | [] => []
  | a :: as => a :: (firstDedup as).filter (· != a)

/-- `sklearn.cluster.DBSCAN(eps=eps, min_samples=1).fit(X).labels_` for the 1-D dataset `xs`.
With `min_samples = 1` every sample's eps-neighbourhood contains at least the sample itself,
so every sample is a core sample, no sample is ever labelled noise (`-1`), and the clusters
are exactly the eps-chain connected components; sklearn numbers clusters in the order their
first member appears in the data, which is the ascending order of the component minima. -/
def dbscanLabels (eps : ℚ) (xs : List ℚ) : List Int :=
  let mins := (List.range xs.length).map (compMin eps xs)
  let reps := firstDedup mins
  mins.map fun m => (reps.indexOf m : Int)

/-- `DBSCAN(...).fit(X)` including sklearn's input validation: fitting
`np.array([[item["center_x"]] for item in []])`, which is the 1-D empty array of shape
`(0,)`, raises `ValueError` (sklearn's `check_array` demands a 2-D array with at least one
sample). -/
def dbscanFit (eps : ℚ) (xs : List ℚ) : Except String (List Int) :=
  if xs.isEmpty then .error "ValueError: empty input array"
  else .ok (dbscanLabels eps xs)

/-- `float(np.mean([item["center_x"] for item in col]))`. NumPy returns NaN (with a
RuntimeWarning, not an exception) on an empty list; modelled as `0`, which is never compared
against in the pipeline because an empty column only arises alone, in the empty-input
fallback where the singleton column list is not reordered. -/
def meanX (col : List TextBox) : ℚ := (col.map TextBox.center_x).sum / (col.length : ℚ)

/-- `find_nearest_cluster` (ocr_service.py lines 205-220): scan the clusters dict in
insertion order keeping the label of the strictly smallest distance seen so far;
`min_distance` starts at infinity (modelled by `none`) and `nearest_label` at 0. -/
def find_nearest_cluster (item : TextBox) (clusters : List (Int × List TextBox)) : Int :=
  if clusters.isEmpty then 0
  else
    (clusters.foldl
      (fun st p =>
        let d := |item.center_x - meanX p.2|
        match st.1 with
        | none => (some d, p.1)
        | some m => if d < m then (some d, p.1) else st)
      ((none : Option ℚ), (0 : Int))).2

/-- `columns[label].append(text_boxes[i])` preceded by `if label not in columns:
columns[label] = []` — a Python dict update, with the dict modelled as an association list
in key-insertion order (keys are unique by construction, so updating the first match is
exact). -/
def appendAt (label : Int) (tb : TextBox) : List (Int × List TextBox) → List (Int × List TextBox)
  | [] => [(label, [tb])]
  | (k, v) :: rest =>
      if k = label then (k, v ++ [tb]) :: rest else (k, v) :: appendAt label tb rest

/-- The grouping loop of `cluster_columns_dbscan` (ocr_service.py lines 184-191): scan the
labelled boxes in input order; a `-1` (noise) label is first replaced via
`find_nearest_cluster` against the clusters built so far. (With `min_samples = 1` the
branch is dead: `dbscanLabels` never yields `-1`.) -/
def clusterLoop : List (Int × TextBox) → List (Int × List TextBox) → List (Int × List TextBox)
  | [], cs => cs
  | (l, tb) :: rest, cs =>
      clusterLoop rest (appendAt (if l = -1 then find_nearest_cluster tb cs else l) tb cs)

/-- `cluster_columns_dbscan` (service version, ocr_service.py lines 167-202): DBSCAN on the
center-x values with the hard-coded `eps = 120`, `min_samples = 1`, then grouping by label;
the surrounding `try/except` catches any exception — in particular sklearn's `ValueError`
on an empty input — and returns the whole input as a single column `[text_boxes]`. -/
def cluster_columns_dbscan (tbs : List TextBox) : List (List TextBox) :=
  match dbscanFit 120 (tbs.map TextBox.center_x) with
  | .error _ => [tbs]
  | .ok labels => (clusterLoop (labels.zip tbs) []).map Prod.snd

/-- `cluster_columns_dbscan` (standalone version, PaddleOCR/PaddleOCR.py lines 75-107):
identical computation but with no `try/except`, so sklearn's `ValueError` on an empty
input propagates to the caller. -/
def cluster_columns_dbscan_standalone (tbs : List TextBox) :
    Except String (List (List TextBox)) :=
  (dbscanFit 120 (tbs.map TextBox.center_x)).map
    fun labels => (clusterLoop (labels.zip tbs) []).map Prod.snd

/-- The columns after the two sorting stages of `sort_text_with_bbox` (ocr_service.py lines
140-149): stable sort of the column list by descending mean center-x (key `-mean`), then
stable sort of each column by ascending center-y. -/
def sortedColumns (boxes : List (ℚ × ℚ × ℚ × ℚ)) (texts : List String) : List (List TextBox) :=
  (sortByKey (fun col => -(meanX col)) (cluster_columns_dbscan (build_text_boxes boxes texts))).map
    (sortByKey TextBox.center_y)

/-- `sort_text_with_bbox` (service version, ocr_service.py lines 100-164): the texts of the
ordered columns, flattened in column order then intra-column order. -/
def sort_text_with_bbox (boxes : List (ℚ × ℚ × ℚ × ℚ)) (texts : List String) : List String :=
  ((sortedColumns boxes texts).map (List.map TextBox.text)).flatten

/-- `full_text = "".join(sorted_texts)` (run_paddle_ocr_analysis line 366). -/
def full_text (boxes : List (ℚ × ℚ × ℚ × ℚ)) (texts : List String) : String :=
  String.join (sort_text_with_bbox boxes texts)

/-- `sort_text_with_bbox` (standalone version, PaddleOCR/PaddleOCR.py lines 24-73): no
`try/except`, so the `ValueError` raised by DBSCAN on an empty input propagates. -/
def sort_text_with_bbox_standalone (boxes : List (ℚ × ℚ × ℚ × ℚ)) (texts : List String) :
    Except String (List String) :=
  (cluster_columns_dbscan_standalone (build_text_boxes boxes texts)).map fun columns =>
    (((sortByKey (fun col => -(meanX col)) columns).map (sortByKey TextBox.center_y)).map
      (List.map TextBox.text)).flatten

/-- run_paddle_ocr_analysis lines 356-362: `avg_confidence` stays `None` when the score list
is empty, otherwise it is the arithmetic mean. -/
def avg_confidence (scores : List ℚ) : Option ℚ :=
  if scores = [] then none else some (scores.sum / (scores.length : ℚ))

/-- analyze_with_paddle line 583: `float(avg_confidence) if avg_confidence is not None
else 0.0`. -/
def confidence_score (scores : List ℚ) : ℚ := (avg_confidence scores).getD 0

/-- One entry of the `words_data` lists handled by AzureOCR.py and the service-layer result
processors: text content, confidence, and the flat polygon `[x1, y1, x2, y2, ...]`. -/
structure AWord where
  content : String
  confidence : ℚ
  polygon : List ℚ
deriving Repr, DecidableEq

/-- `w["polygon"][0]`: the x-coordinate of the first polygon vertex (in the AzureOCR.py
pipeline every polygon has at least 8 entries, so the default is never read). -/
def x0 (w : AWord) : ℚ := w.polygon.getD 0 0

/-- `w["polygon"][1]`: the y-coordinate of the first polygon vertex. -/
def y0 (w : AWord) : ℚ := w.polygon.getD 1 0

/-- `sum(w["polygon"][0] for w in current_line) / len(current_line)` (AzureOCR.py line 225). -/
def lineAvgX (line : List AWord) : ℚ := (line.map x0).sum / (line.length : ℚ)

/-- The loop of `group_words_by_vertical_lines` (AzureOCR.py lines 224-238): append the next
word to the running line when its first-vertex x is within `t` of the line's running average
first-vertex x, otherwise close the line (sorting it by first-vertex y) and start a new one;
the final nonempty line is closed the same way. -/
def seqGo (t : ℚ) : List AWord → List AWord → List (List AWord) → List (List AWord)
  | [], current, acc => acc ++ [sortByKey y0 current]
  | w :: rest, current, acc =>
      if |x0 w - lineAvgX current| ≤ t then seqGo t rest (current ++ [w]) acc
      else seqGo t rest [w] (acc ++ [sortByKey y0 current])

/-- `group_words_by_vertical_lines` (AzureOCR.py lines 214-240): empty input yields `[]`;
otherwise sort the words ascending by `polygon[0]` and group greedily; the default threshold
is 50. No parameter validation is performed. -/
def group_words_by_vertical_lines (t : ℚ) (ws : List AWord) : List (List AWord) :=
  match sortByKey x0 ws with
  | [] => []
  | w :: rest => seqGo t rest [w] []

/-- The even-position entries of a flat coordinate list (the x-coordinates). -/
def evenEntries (l : List ℚ) : List ℚ :=
  l.enum.filterMap fun p => if p.1 % 2 = 0 then some p.2 else none

/-- The odd-position entries of a flat coordinate list (the y-coordinates). -/
def oddEntries (l : List ℚ) : List ℚ :=
  l.enum.filterMap fun p => if p.1 % 2 = 1 then some p.2 else none

/-- Modelled from the spec: the spec's derived `center_x` of a detection, the arithmetic
mean of the polygon's x-coordinates (§4.1). -/
def centerXSpec (w : AWord) : ℚ :=
  (evenEntries w.polygon).sum / ((evenEntries w.polygon).length : ℚ)

/-- Modelled from the spec: the greedy grouping loop exactly as claim C8 words it, keyed on
the element `center_x` (mean of polygon x-coordinates) instead of the code's `polygon[0]`,
and without the code's intra-line y-sort. -/
def specGoCx (t : ℚ) : List AWord → List AWord → List (List AWord)
  | [], current => [current]
  | w :: rest, current =>
      if |centerXSpec w - (current.map centerXSpec).sum / (current.length : ℚ)| ≤ t then
        specGoCx t rest (current ++ [w])
      else current :: specGoCx t rest [w]

/-- Modelled from the spec: sequential threshold grouping as claim C8 states it — sort
ascending by `center_x`, then group greedily against the running mean `center_x`. -/
def seq_group_claim (t : ℚ) (ws : List AWord) : List (List AWord) :=
  match sortByKey centerXSpec ws with
  | [] => []
  | w :: rest => specGoCx t rest [w]

/-- The amended description of the code's grouping: greedy blocks over the list sorted
ascending by the first polygon vertex's x-coordinate, against the running mean of those
x-coordinates, without the intra-line y-sort (which is applied on top, see
`seq_group_amended_spec`). -/
def specGoX0 (t : ℚ) : List AWord → List AWord → List (List AWord)
  | [], current => [current]
  | w :: rest, current =>
      if |x0 w - lineAvgX current| ≤ t then specGoX0 t rest (current ++ [w])
      else current :: specGoX0 t rest [w]

/-- The pure grouping described by the amended claim C8: sort ascending by `polygon[0]`,
then form greedy blocks against the running mean of `polygon[0]`. -/
def seq_group_amended_spec (t : ℚ) (ws : List AWord) : List (List AWord) :=
  match sortByKey x0 ws with
  | [] => []
  | w :: rest => specGoX0 t rest [w]

/-- One processed word of `_process_azure_result` / `_process_paddle_result`. -/
structure WordData where
  text : String
  confidence : ℚ
  polygon : List ℚ
  bbox : List Int
  center_x : ℚ
  center_y : ℚ
deriving Repr, DecidableEq

/-- `min` over a list of rationals (Python `min(...)`; only applied to nonempty lists in the
embedded code, the `0` default is never read there). -/
def listMin (l : List ℚ) : ℚ := match l with | [] => 0 | a :: as => as.foldl min a

/-- `max` over a list of rationals. -/
def listMax (l : List ℚ) : ℚ := match l with | [] => 0 | a :: as => as.foldl max a

/-- Python `int(q)`: truncation toward zero. -/
def pyInt (q : ℚ) : Int := if 0 ≤ q then ⌊q⌋ else ⌈q⌉

/-- `_process_azure_result` (azure_ocr_service.py lines 158-205), per-word extraction:
when `polygon and len(polygon) >= 8` the bbox and center come from the min/max of the
even-position (x) and odd-position (y) coordinates; otherwise the word is kept with the
substitute default geometry `bbox = [0, 0, 100, 20]`, `center_x = 50`, `center_y = 10`. -/
def extract_word_data (w : AWord) : WordData :=
  if 8 ≤ w.polygon.length then
    let xs := evenEntries w.polygon
    let ys := oddEntries w.polygon
    let min_x := listMin xs
    let max_x := listMax xs
    let min_y := listMin ys
    let max_y := listMax ys
    { text := w.content, confidence := w.confidence, polygon := w.polygon,
      bbox := [pyInt min_x, pyInt min_y, pyInt (max_x - min_x), pyInt (max_y - min_y)],
      center_x := (min_x + max_x) / 2, center_y := (min_y + max_y) / 2 }
  else
    { text := w.content, confidence := w.confidence, polygon := w.polygon,
      bbox := [0, 0, 100, 20], center_x := 50, center_y := 10 }

/-- The `words_data` list built by `_process_azure_result`: every input word yields exactly
one entry; none is dropped and nothing is raised. -/
def words_data (ws : List AWord) : List WordData := ws.map extract_word_data

/-- `models/ocr.py` WordResult as used by the result processors. -/
structure WordResult where
  text : String
  confidence : ℚ
  bbox : List Int
  polygon : Option (List ℚ)
deriving Repr, DecidableEq

/-- `models/ocr.py` LineResult as used by the result processors. -/
structure LineResult where
  line_number : Nat
  words : List WordResult
  full_text : String
  avg_confidence : ℚ
  bbox : List Int
deriving Repr, DecidableEq

/-- The unified result dict returned by `_process_azure_result` / `_process_paddle_result`. -/
structure ProcessedResult where
  lines : List LineResult
  full_text : String
  word_count : Nat
  confidence_avg : ℚ
deriving Repr, DecidableEq

/-- The fallback `{lines: [], full_text: "", word_count: 0, confidence_avg: 0.0}`. -/
def emptyProcessed : ProcessedResult :=
  { lines := [], full_text := "", word_count := 0, confidence_avg := 0 }

/-- utils/text_processing.py lines 7-51: the class body of
`HistoricalDocumentTextProcessor` defines exactly these two methods. -/
def processorMethods : List String :=
  ["sort_words_vertical_reading", "calculate_confidence_stats"]

/-- The attribute lookup `processor.group_words_by_lines` performed at
azure_ocr_service.py line 217 and paddle_ocr_service.py line 213: the class defines no such
method (see `processorMethods`), so the lookup raises `AttributeError`; modelled as `none`. -/
def group_words_by_lines_attr : Option (List WordData → List (List WordData)) := none

/-- `np.mean` guarded by a nonemptiness check (`... if line_confidences else 0.0`). -/
def listMeanQ (l : List ℚ) : ℚ := if l = [] then 0 else l.sum / (l.length : ℚ)

/-- `min` over a list of integers. -/
def intListMin (l : List Int) : Int := match l with | [] => 0 | a :: as => as.foldl min a

/-- `max` over a list of integers. -/
def intListMax (l : List Int) : Int := match l with | [] => 0 | a :: as => as.foldl max a

/-- azure_ocr_service.py lines 224-262: build one LineResult from a vertical line, with the
empty-line bbox guard and the polygon-or-None conversion of the Azure variant. -/
def build_line_result_azure (line_idx : Nat) (line_words : List WordData) : LineResult :=
  let bs := line_words.map WordData.bbox
  { line_number := line_idx + 1
    words := line_words.map fun word =>
      { text := word.text, confidence := word.confidence, bbox := word.bbox,
        polygon := if word.polygon = [] then none else some word.polygon }
    full_text := String.join (line_words.map WordData.text)
    avg_confidence := listMeanQ (line_words.map WordData.confidence)
    bbox :=
      if line_words ≠ [] then
        let minx := intListMin (bs.map fun b => b.getD 0 0)
        let miny := intListMin (bs.map fun b => b.getD 1 0)
        let maxx := intListMax (bs.map fun b => b.getD 0 0 + b.getD 2 0)
        let maxy := intListMax (bs.map fun b => b.getD 1 0 + b.getD 3 0)
        [minx, miny, maxx - minx, maxy - miny]
      else [0, 0, 0, 0] }

/-- paddle_ocr_service.py lines 220-254: same construction without the empty-line guard and
with the polygon always passed through. -/
def build_line_result_paddle (line_idx : Nat) (line_words : List WordData) : LineResult :=
  let bs := line_words.map WordData.bbox
  { line_number := line_idx + 1
    words := line_words.map fun word =>
      { text := word.text, confidence := word.confidence, bbox := word.bbox,
        polygon := some word.polygon }
    full_text := String.join (line_words.map WordData.text)
    avg_confidence := listMeanQ (line_words.map WordData.confidence)
    bbox :=
      let minx := intListMin (bs.map fun b => b.getD 0 0)
      let miny := intListMin (bs.map fun b => b.getD 1 0)
      let maxx := intListMax (bs.map fun b => b.getD 0 0 + b.getD 2 0)
      let maxy := intListMax (bs.map fun b => b.getD 1 0 + b.getD 3 0)
      [minx, miny, maxx - minx, maxy - miny] }

/-- The tail of `_process_azure_result` after word extraction (azure_ocr_service.py lines
207-280): return the empty fallback on an empty `words_data`; otherwise the try-block calls
`processor.group_words_by_lines(words_data)`, whose `AttributeError` the handler at line 273
converts to the empty fallback before any LineResult is built. -/
def process_azure_words (words : List WordData) : ProcessedResult :=
  if words = [] then emptyProcessed
  else
    match group_words_by_lines_attr with
    | none => emptyProcessed
    | some f =>
        let vertical_lines := f words
        { lines := vertical_lines.enum.map fun p => build_line_result_azure p.1 p.2
          full_text := String.join ((vertical_lines.map (List.map WordData.text)).flatten)
          word_count := words.length
          confidence_avg :=
            listMeanQ ((vertical_lines.map (List.map WordData.confidence)).flatten) }

/-- The tail of `_process_paddle_result` after word extraction (paddle_ocr_service.py lines
203-274): identical control flow, with the Paddle LineResult construction. -/
def process_paddle_words (words : List WordData) : ProcessedResult :=
  if words = [] then emptyProcessed
  else
    match group_words_by_lines_attr with
    | none => emptyProcessed
    | some f =>
        let vertical_lines := f words
        { lines := vertical_lines.enum.map fun p => build_line_result_paddle p.1 p.2
          full_text := String.join ((vertical_lines.map (List.map WordData.text)).flatten)
          word_count := words.length
          confidence_avg :=
            listMeanQ ((vertical_lines.map (List.map WordData.confidence)).flatten) }

/-! ### Properties of the stable sort -/

theorem insertSorted_perm (key : α → ℚ) (a : α) (l : List α) :
    (insertSorted key a l).Perm (a :: l) := by
  induction l with
  | nil => simp [insertSorted]
  | cons b bs ih =>
    simp only [insertSorted]
    split
    · exact List.Perm.refl _
    · exact (ih.cons b).trans (List.Perm.swap a b bs)

theorem sortByKey_aux_perm (key : α → ℚ) (l acc : List α) :
    (l.foldl (fun acc a => insertSorted key a acc) acc).Perm (acc ++ l) := by
  induction l generalizing acc with
  | nil => simp
  | cons a l ih =>
    simp only [List.foldl_cons]
    refine (ih _).trans ?_
    refine ((insertSorted_perm key a acc).append_right l).trans ?_
    exact List.perm_middle.symm

theorem sortByKey_perm (key : α → ℚ) (l : List α) : (sortByKey key l).Perm l := by
  simpa [sortByKey] using sortByKey_aux_perm key l []

theorem mem_sortByKey {key : α → ℚ} {l : List α} {b : α} : b ∈ sortByKey key l ↔ b ∈ l :=
  (sortByKey_perm key l).mem_iff

/-- The order produced by a stable sort on a list whose `ix` values were strictly
increasing: strictly increasing key, or equal key and strictly increasing `ix`. -/
def keyLex (key : α → ℚ) (ix : α → Nat) (u v : α) : Prop :=
  key u < key v ∨ (key u = key v ∧ ix u < ix v)

theorem keyLex_le {key : α → ℚ} {ix : α → Nat} {u v : α} (h : keyLex key ix u v) :
    key u ≤ key v := by
  rcases h with h | ⟨h, _⟩
  · exact le_of_lt h
  · exact le_of_eq h

theorem insertSorted_pairwise_lex (key : α → ℚ) (ix : α → Nat) (a : α) {l : List α}
    (hl : l.Pairwise (keyLex key ix)) (ha : ∀ b ∈ l, key b = key a → ix b < ix a) :
    (insertSorted key a l).Pairwise (keyLex key ix) := by
  induction l with
  | nil => simp [insertSorted]
  | cons b bs ih =>
    rcases List.pairwise_cons.mp hl with ⟨hb, hbs⟩
    simp only [insertSorted]
    split
    · rename_i hab
      refine List.pairwise_cons.mpr ⟨?_, hl⟩
      intro c hc
      rcases List.mem_cons.mp hc with rfl | hc
      · exact Or.inl hab
      · exact Or.inl (lt_of_lt_of_le hab (keyLex_le (hb c hc)))
    · rename_i hab
      refine List.pairwise_cons.mpr
        ⟨?_, ih hbs (fun c hc h => ha c (List.mem_cons_of_mem b hc) h)⟩
      intro c hc
      rcases List.mem_cons.mp ((insertSorted_perm key a bs).mem_iff.mp hc) with rfl | hc
      · rcases lt_or_eq_of_le (not_lt.mp hab) with h | h
        · exact Or.inl h
        · exact Or.inr ⟨h, ha b (List.mem_cons_self b bs) h⟩
      · exact hb c hc

theorem sortByKey_aux_pairwise_lex (key : α → ℚ) (ix : α → Nat) (l acc : List α)
    (hacc : acc.Pairwise (keyLex key ix))
    (hcross : ∀ b ∈ acc, ∀ c ∈ l, ix b < ix c)
    (hl : l.Pairwise (fun u v => ix u < ix v)) :
    (l.foldl (fun acc a => insertSorted key a acc) acc).Pairwise (keyLex key ix) := by
  induction l generalizing acc with
  | nil => simpa using hacc
  | cons a l ih =>
    rcases List.pairwise_cons.mp hl with ⟨hal, hl2⟩
    simp only [List.foldl_cons]
    refine ih _ (insertSorted_pairwise_lex key ix a hacc
      (fun b hb _ => hcross b hb a (List.mem_cons_self a l))) ?_ hl2
    intro b hb c hc
    rcases List.mem_cons.mp ((insertSorted_perm key a acc).mem_iff.mp hb) with rfl | hb
    · exact hal c hc
    · exact hcross b hb c (List.mem_cons_of_mem a hc)

/-- Stability of `sortByKey`: sorting a list whose `ix` values are strictly increasing
(e.g. the original input order) yields the lexicographic `(key, ix)` order. -/
theorem sortByKey_pairwise_lex (key : α → ℚ) (ix : α → Nat) (l : List α)
    (hl : l.Pairwise (fun u v => ix u < ix v)) :
    (sortByKey key l).Pairwise (keyLex key ix) :=
  sortByKey_aux_pairwise_lex key ix l [] List.Pairwise.nil (by simp) hl

theorem insertSorted_pairwise_le (key : α → ℚ) (a : α) {l : List α}
    (hl : l.Pairwise (fun u v => key u ≤ key v)) :
    (insertSorted key a l).Pairwise (fun u v => key u ≤ key v) := by
  induction l with
  | nil => simp [insertSorted]
  | cons b bs ih =>
    rcases List.pairwise_cons.mp hl with ⟨hb, hbs⟩
    simp only [insertSorted]
    split
    · rename_i hab
      refine List.pairwise_cons.mpr ⟨?_, hl⟩
      intro c hc
      rcases List.mem_cons.mp hc with rfl | hc
      · exact le_of_lt hab
      · exact le_of_lt (lt_of_lt_of_le hab (hb c hc))
    · rename_i hab
      refine List.pairwise_cons.mpr ⟨?_, ih hbs⟩
      intro c hc
      rcases List.mem_cons.mp ((insertSorted_perm key a bs).mem_iff.mp hc) with rfl | hc
      · exact not_lt.mp hab
      · exact hb c hc

theorem sortByKey_aux_pairwise_le (key : α → ℚ) (l acc : List α)
    (hacc : acc.Pairwise (fun u v => key u ≤ key v)) :
    (l.foldl (fun acc a => insertSorted key a acc) acc).Pairwise
      (fun u v => key u ≤ key v) := by
  induction l generalizing acc with
  | nil => simpa using hacc
  | cons a l ih => exact ih _ (insertSorted_pairwise_le key a hacc)

/-- `sortByKey` sorts: the output keys are non-decreasing. -/
theorem sortByKey_pairwise_le (key : α → ℚ) (l : List α) :
    (sortByKey key l).Pairwise (fun u v => key u ≤ key v) :=
  sortByKey_aux_pairwise_le key l [] List.Pairwise.nil

theorem insertSorted_map (key : β → ℚ) (g : α → β) (a : α) (l : List α) :
    (insertSorted (fun x => key (g x)) a l).map g = insertSorted key (g a) (l.map g) := by
  induction l with
  | nil => rfl
  | cons b bs ih =>
    by_cases h : key (g a) < key (g b)
    · simp [insertSorted, h]
    · simp [insertSorted, h, ih]

theorem sortByKey_map_aux (key : β → ℚ) (g : α → β) (l acc : List α) :
    (l.foldl (fun acc a => insertSorted (fun x => key (g x)) a acc) acc).map g =
      (l.map g).foldl (fun acc a => insertSorted key a acc) (acc.map g) := by
  induction l generalizing acc with
  | nil => rfl
  | cons a l ih =>
    simp only [List.foldl_cons, List.map_cons]
    rw [ih, insertSorted_map]

/-- Sorting by a key that only looks through `g` commutes with mapping `g`. -/
theorem sortByKey_map (key : β → ℚ) (g : α → β) (l : List α) :
    (sortByKey (fun x => key (g x)) l).map g = sortByKey key (l.map g) := by
  simpa [sortByKey] using sortByKey_map_aux key g l []

theorem enum_pairwise_fst (l : List α) : l.enum.Pairwise (fun u v => u.1 < v.1) := by
  have h : (l.enum.map Prod.fst).Pairwise (· < ·) := by
    rw [List.enum_map_fst]
    exact List.pairwise_lt_range l.length
  exact List.pairwise_map.mp h

/-! ### Conservation through the clustering loop -/

/-- All boxes stored across the clusters dict, in dict order. -/
def colsFlatten (cs : List (Int × List TextBox)) : List TextBox := (cs.map Prod.snd).flatten

theorem colsFlatten_appendAt (label : Int) (tb : TextBox) (cs : List (Int × List TextBox)) :
    (colsFlatten (appendAt label tb cs)).Perm (colsFlatten cs ++ [tb]) := by
  induction cs with
  | nil => simp [appendAt, colsFlatten]
  | cons p rest ih =>
    obtain ⟨k, v⟩ := p
    by_cases h : k = label
    · simp only [appendAt, if_pos h, colsFlatten, List.map_cons, List.flatten_cons,
        List.append_assoc]
      exact List.Perm.append_left v List.perm_append_comm
    · simp only [appendAt, if_neg h, colsFlatten, List.map_cons, List.flatten_cons,
        List.append_assoc] at ih ⊢
      exact List.Perm.append_left v ih

theorem clusterLoop_flatten_perm (pairs : List (Int × TextBox))
    (cs : List (Int × List TextBox)) :
    (colsFlatten (clusterLoop pairs cs)).Perm (colsFlatten cs ++ pairs.map Prod.snd) := by
  induction pairs generalizing cs with
  | nil => simp [clusterLoop]
  | cons p rest ih =>
    obtain ⟨l, tb⟩ := p
    simp only [clusterLoop, List.map_cons]
    refine (ih _).trans ?_
    refine ((colsFlatten_appendAt _ tb cs).append_right _).trans ?_
    simp

/-! ### Input-order structure of the clustered columns -/

/-- Original-input-order comparison of two text boxes. -/
abbrev IdxLt (a b : TextBox) : Prop := a.index < b.index

theorem appendAt_cols (label : Int) (tb : TextBox) (cs : List (Int × List TextBox)) :
    ∀ col ∈ (appendAt label tb cs).map Prod.snd,
      col ∈ cs.map Prod.snd ∨ (∃ c ∈ cs.map Prod.snd, col = c ++ [tb]) ∨ col = [tb] := by
  induction cs with
  | nil =>
    intro col hcol
    simp only [appendAt, List.map_cons, List.map_nil, List.mem_singleton] at hcol
    exact Or.inr (Or.inr hcol)
  | cons p rest ih =>
    obtain ⟨k, v⟩ := p
    intro col hcol
    by_cases h : k = label
    · simp only [appendAt, if_pos h, List.map_cons, List.mem_cons] at hcol
      rcases hcol with rfl | hcol
      · exact Or.inr (Or.inl ⟨v, by simp, rfl⟩)
      · exact Or.inl (by simp [hcol])
    · simp only [appendAt, if_neg h, List.map_cons, List.mem_cons] at hcol
      rcases hcol with rfl | hcol
      · exact Or.inl (by simp)
      · rcases ih col hcol with h1 | ⟨c, hc, rfl⟩ | h3
        · exact Or.inl (by simp [h1])
        · exact Or.inr (Or.inl ⟨c, by simp [hc], rfl⟩)
        · exact Or.inr (Or.inr h3)

theorem clusterLoop_cols_pairwise (pairs : List (Int × TextBox))
    (cs : List (Int × List TextBox))
    (h1 : ∀ col ∈ cs.map Prod.snd, col.Pairwise IdxLt)
    (h2 : ∀ col ∈ cs.map Prod.snd, ∀ a ∈ col, ∀ p ∈ pairs, a.index < p.2.index)
    (h3 : (pairs.map Prod.snd).Pairwise IdxLt) :
    ∀ col ∈ (clusterLoop pairs cs).map Prod.snd, col.Pairwise IdxLt := by
  induction pairs generalizing cs with
  | nil => simpa [clusterLoop] using h1
  | cons p rest ih =>
    obtain ⟨l, tb⟩ := p
    rw [List.map_cons] at h3
    rcases List.pairwise_cons.mp h3 with ⟨htb, hrest⟩
    simp only [clusterLoop]
    refine ih _ ?_ ?_ hrest
    · intro col hcol
      rcases appendAt_cols _ tb cs col hcol with hc | ⟨c, hc, rfl⟩ | rfl
      · exact h1 col hc
      · refine List.pairwise_append.mpr ⟨h1 c hc, List.pairwise_singleton .., ?_⟩
        intro a ha b hb
        rw [List.mem_singleton.mp hb]
        exact h2 c hc a ha (l, tb) (List.mem_cons_self _ _)
      · exact List.pairwise_singleton ..
    · intro col hcol a ha q hq
      rcases appendAt_cols _ tb cs col hcol with hc | ⟨c, hc, rfl⟩ | rfl
      · exact h2 col hc a ha q (List.mem_cons_of_mem _ hq)
      · rcases List.mem_append.mp ha with ha | ha
        · exact h2 c hc a ha q (List.mem_cons_of_mem _ hq)
        · rw [List.mem_singleton.mp ha]
          exact htb q.2 (List.mem_map_of_mem Prod.snd hq)
      · rw [List.mem_singleton.mp ha]
        exact htb q.2 (List.mem_map_of_mem Prod.snd hq)

theorem dbscanLabels_length (eps : ℚ) (xs : List ℚ) :
    (dbscanLabels eps xs).length = xs.length := by
  simp [dbscanLabels]

theorem dbscanFit_ok {eps : ℚ} {xs : List ℚ} {labels : List Int}
    (h : dbscanFit eps xs = .ok labels) : labels = dbscanLabels eps xs := by
  by_cases he : xs.isEmpty
  · simp [dbscanFit, he] at h
  · simp only [dbscanFit, if_neg he, Except.ok.injEq] at h
    exact h.symm

theorem build_text_boxes_pairwise (boxes : List (ℚ × ℚ × ℚ × ℚ)) (texts : List String) :
    (build_text_boxes boxes texts).Pairwise IdxLt := by
  unfold build_text_boxes
  rw [List.pairwise_map]
  refine (enum_pairwise_fst (boxes.zip texts)).imp ?_
  intro a b hab
  obtain ⟨i, ⟨⟨x1, y1, x2, y2⟩, t⟩⟩ := a
  obtain ⟨j, ⟨⟨x1b, y1b, x2b, y2b⟩, tb⟩⟩ := b
  exact hab

theorem cluster_columns_pairwise_index (tbs : List TextBox)
    (htbs : tbs.Pairwise IdxLt) :
    ∀ col ∈ cluster_columns_dbscan tbs, col.Pairwise IdxLt := by
  unfold cluster_columns_dbscan
  cases hfit : dbscanFit 120 (tbs.map TextBox.center_x) with
  | error e =>
    intro col hcol
    rcases List.mem_singleton.mp hcol with rfl
    exact htbs
  | ok labels =>
    intro col hcol
    refine clusterLoop_cols_pairwise _ [] (by simp) (by simp) ?_ col hcol
    have hlen : tbs.length ≤ labels.length := by
      rw [dbscanFit_ok hfit, dbscanLabels_length]
      simp
    rw [List.map_snd_zip _ _ hlen]
    exact htbs

/-! ### Structure of the sequential grouping -/

/-- Every member of `l1` lies at or left of every member of `l2` (first-vertex x). -/
def Leftward (l1 l2 : List AWord) : Prop := ∀ a ∈ l1, ∀ b ∈ l2, x0 a ≤ x0 b

theorem seqGo_pairwise_leftward (t : ℚ) (rest current : List AWord)
    (acc : List (List AWord))
    (hsorted : (current ++ rest).Pairwise (fun u v => x0 u ≤ x0 v))
    (hacc : acc.Pairwise Leftward)
    (hcross : ∀ line ∈ acc, Leftward line (current ++ rest)) :
    (seqGo t rest current acc).Pairwise Leftward := by
  induction rest generalizing current acc with
  | nil =>
    simp only [seqGo]
    refine List.pairwise_append.mpr ⟨hacc, List.pairwise_singleton .., ?_⟩
    intro l1 h1 l2 h2
    rw [List.mem_singleton.mp h2]
    intro a ha b hb
    exact hcross l1 h1 a ha b (by simpa using mem_sortByKey.mp hb)
  | cons w rest ih =>
    simp only [seqGo]
    split
    · refine ih (current ++ [w]) acc ?_ hacc ?_
      · have : current ++ [w] ++ rest = current ++ (w :: rest) := by simp
        rw [this]
        exact hsorted
      · intro line hline a ha b hb
        refine hcross line hline a ha b ?_
        have : current ++ [w] ++ rest = current ++ (w :: rest) := by simp
        rw [← this]
        exact hb
    · refine ih [w] (acc ++ [sortByKey y0 current]) ?_ ?_ ?_
      · exact hsorted.sublist (List.sublist_append_right current (w :: rest))
      · refine List.pairwise_append.mpr ⟨hacc, List.pairwise_singleton .., ?_⟩
        intro l1 h1 l2 h2
        rw [List.mem_singleton.mp h2]
        intro a ha b hb
        exact hcross l1 h1 a ha b
          (List.mem_append.mpr (Or.inl (mem_sortByKey.mp hb)))
      · intro line hline a ha b hb
        rcases List.mem_append.mp hline with hline | hline
        · exact hcross line hline a ha b (List.mem_append.mpr (Or.inr (by simpa using hb)))
        · rw [List.mem_singleton.mp hline] at ha
          rcases List.pairwise_append.mp hsorted with ⟨_, _, hcr⟩
          exact hcr a (mem_sortByKey.mp ha) b (by simpa using hb)

/-- The sequential strategy emits its lines in ascending (left-to-right) x order: every
member of an earlier line is at or left of every member of a later line. -/
theorem group_vertical_lines_leftward (t : ℚ) (ws : List AWord) :
    (group_words_by_vertical_lines t ws).Pairwise Leftward := by
  unfold group_words_by_vertical_lines
  cases hs : sortByKey x0 ws with
  | nil => simp
  | cons w rest =>
    have hsorted : (w :: rest).Pairwise (fun u v => x0 u ≤ x0 v) := by
      rw [← hs]
      exact sortByKey_pairwise_le x0 ws
    exact seqGo_pairwise_leftward t rest [w] [] (by simpa using hsorted)
      List.Pairwise.nil (by simp)

theorem seqGo_neg (t : ℚ) (ht : t < 0) (rest : List AWord) :
    ∀ (current : List AWord) (acc : List (List AWord)),
      seqGo t rest current acc =
        acc ++ [sortByKey y0 current] ++ rest.map (fun w => [w]) := by
  induction rest with
  | nil => intro current acc; simp [seqGo]
  | cons w rest ih =>
    intro current acc
    have hcond : ¬ |x0 w - lineAvgX current| ≤ t := by
      intro h
      exact absurd (le_trans (abs_nonneg _) h) (not_le.mpr ht)
    simp only [seqGo, if_neg hcond]
    rw [ih]
    have hw : sortByKey y0 [w] = [w] := rfl
    simp [hw]

theorem seqGo_eq_spec (t : ℚ) (rest : List AWord) :
    ∀ (current : List AWord) (acc : List (List AWord)),
      seqGo t rest current acc = acc ++ (specGoX0 t rest current).map (sortByKey y0) := by
  induction rest with
  | nil => intro current acc; simp [seqGo, specGoX0]
  | cons w rest ih =>
    intro current acc
    simp only [seqGo, specGoX0]
    split
    · rw [ih]
    · rw [ih]
      simp

/-! ### Concrete inputs -/

/-- Scenario A boxes: centers (500, 10), (505, 50), (10, 30). -/
def boxesA : List (ℚ × ℚ × ℚ × ℚ) := [(495, 5, 505, 15), (500, 45, 510, 55), (5, 25, 15, 35)]

def textsA : List String := ["天", "下", "太"]

/-- Scenario C boxes: five centers 80, 90, 100, 110, 120 (all pairwise within eps = 120)
and one outlier with center 9999. -/
def boxesC : List (ℚ × ℚ × ℚ × ℚ) :=
  [(70, 0, 90, 20), (80, 0, 100, 20), (90, 0, 110, 20), (100, 0, 120, 20), (110, 0, 130, 20),
   (9989, 0, 10009, 20)]

def textsC : List String := ["a", "b", "c", "d", "e", "z"]

def tbsC : List TextBox := build_text_boxes boxesC textsC

/-- Two detections with equal center_y = 50 and center_x 110 then 100, in that input order. -/
def boxesT : List (ℚ × ℚ × ℚ × ℚ) := [(100, 40, 120, 60), (90, 40, 110, 60)]

def textsT : List String := ["first", "second"]

/-- A single concrete box for instantiating hypothesised theorems. -/
def tbW : TextBox :=
  { text := "w", center_x := 10, center_y := 20, height := 2, box := [9, 19, 11, 21],
    index := 0 }

/-- A singleton input for the intra-column witness: `build_text_boxes boxesW textsW`
is exactly `[tbW]`. -/
def boxesW : List (ℚ × ℚ × ℚ × ℚ) := [(9, 19, 11, 21)]

def textsW : List String := ["w"]

/-- A leftish word: first polygon vertex x = 0, spec center_x = 5. -/
def waL : AWord := { content := "L", confidence := 1, polygon := [0, 0, 10, 0, 10, 10, 0, 10] }

/-- A rightish word: first polygon vertex x = 500, spec center_x = 505. -/
def wbR : AWord :=
  { content := "R", confidence := 1, polygon := [500, 0, 510, 0, 510, 10, 500, 10] }

/-- A wide word: first polygon vertex x = 0, but spec center_x = 150. -/
def wA8 : AWord :=
  { content := "A", confidence := 1, polygon := [0, 0, 300, 0, 300, 10, 0, 10] }

/-- A narrow word: first polygon vertex x = 40, spec center_x = 45. -/
def wB8 : AWord :=
  { content := "B", confidence := 1, polygon := [40, 0, 50, 0, 50, 10, 40, 10] }

/-- A detection with an empty coordinate sequence. -/
def badW : AWord := { content := "x", confidence := 9 / 10, polygon := [] }

def wdW : WordData := extract_word_data badW

/-! ### The claims -/

/-- C1: Conservation — every element of the input appears in exactly one output column:
the flattened column list of `cluster_columns_dbscan` is a permutation of its input (no
loss, no duplication), and the same holds for the standalone variant whenever it returns
a result at all. -/
theorem claim1_conservation (tbs : List TextBox) :
    ((cluster_columns_dbscan tbs).flatten).Perm tbs ∧
    ∀ cols, cluster_columns_dbscan_standalone tbs = Except.ok cols →
      (cols.flatten).Perm tbs := by
  have hcore : ∀ labels : List Int, labels.length = tbs.length →
      (((clusterLoop (labels.zip tbs) []).map Prod.snd).flatten).Perm tbs := by
    intro labels hlen
    have h := clusterLoop_flatten_perm (labels.zip tbs) []
    have hz : ((labels.zip tbs).map Prod.snd) = tbs := List.map_snd_zip _ _ hlen.ge
    simpa [colsFlatten, hz] using h
  constructor
  · unfold cluster_columns_dbscan
    cases hfit : dbscanFit 120 (tbs.map TextBox.center_x) with
    | error e => simp
    | ok labels =>
      exact hcore labels (by rw [dbscanFit_ok hfit, dbscanLabels_length]; simp)
  · intro cols hcols
    unfold cluster_columns_dbscan_standalone at hcols
    cases hfit : dbscanFit 120 (tbs.map TextBox.center_x) with
    | error e =>
      rw [hfit] at hcols
      simp [Except.map] at hcols
    | ok labels =>
      rw [hfit] at hcols
      simp only [Except.map, Except.ok.injEq] at hcols
      rw [← hcols]
      exact hcore labels (by rw [dbscanFit_ok hfit, dbscanLabels_length]; simp)

/-- Witness for `claim1_conservation`: the standalone clusterer returns `[[tbW]]` on the
singleton input, and both conservation conclusions hold there. -/
theorem claim1_conservation_witness :
    (((cluster_columns_dbscan [tbW]).flatten).Perm [tbW]) ∧
    (([[tbW]] : List (List TextBox)).flatten).Perm [tbW] :=
  ⟨(claim1_conservation [tbW]).1,
   (claim1_conservation [tbW]).2 [[tbW]] (by with_unfolding_all rfl)⟩

set_option maxRecDepth 8000 in
/-- C2 counterexample: on two far-apart words the sequential strategy emits the left
column (spec mean center_x 5) before the right one (505) — ascending, not the claimed
non-increasing right-to-left order. -/
theorem claim2_counterexample :
    (group_words_by_vertical_lines 50 [waL, wbR]).map (List.map AWord.content)
        = [["L"], ["R"]] ∧
    centerXSpec waL < centerXSpec wbR := by
  exact ⟨by with_unfolding_all decide, by with_unfolding_all decide⟩

/-- C2 amended: the density-based pipeline's column sort is a stable sort on the key
`-mean`, so its output is ordered by non-increasing mean center-x with ties — exact
equality of means, there is no epsilon in the code — broken by ascending column-creation
order; the sequential strategy instead emits its lines in ascending x order (leftmost
first). -/
theorem claim2_column_order :
    (∀ cols : List (List TextBox),
        (sortByKey (fun col => -(meanX col)) cols).Perm cols ∧
        (sortByKey (fun p => -(meanX p.2)) cols.enum).map Prod.snd =
          sortByKey (fun col => -(meanX col)) cols ∧
        (sortByKey (fun p => -(meanX p.2)) cols.enum).Pairwise
          (fun u v => meanX v.2 < meanX u.2 ∨ (meanX u.2 = meanX v.2 ∧ u.1 < v.1))) ∧
    ∀ (t : ℚ) (ws : List AWord),
      (group_words_by_vertical_lines t ws).Pairwise Leftward := by
  constructor
  · intro cols
    refine ⟨sortByKey_perm _ _, ?_, ?_⟩
    · have h := sortByKey_map (fun col => -(meanX col))
        (Prod.snd : Nat × List TextBox → List TextBox) cols.enum
      rw [List.enum_map_snd] at h
      exact h
    · have h := sortByKey_pairwise_lex (fun p => -(meanX p.2)) Prod.fst cols.enum
        (enum_pairwise_fst cols)
      refine h.imp ?_
      intro u v huv
      rcases huv with h1 | ⟨h1, h2⟩
      · exact Or.inl (neg_lt_neg_iff.mp h1)
      · exact Or.inr ⟨neg_inj.mp h1, h2⟩
  · exact group_vertical_lines_leftward

set_option maxRecDepth 8000 in
/-- C3 counterexample: two detections with equal center_y (50) and center_x 110 then 100
in input order land in one column, and the output keeps input order — center_x 110 before
100 — not the ascending-center_x tie-break the claim states. -/
theorem claim3_counterexample :
    (sortedColumns boxesT textsT).map (List.map TextBox.center_x) = [[110, 100]] ∧
    (sortedColumns boxesT textsT).map (List.map TextBox.center_y) = [[50, 50]] := by
  exact ⟨by with_unfolding_all decide, by with_unfolding_all decide⟩

/-- C3 amended: within every pipeline column, elements are ordered by ascending center_y
with ties broken by ascending original input index alone (stability of the sort);
center_x plays no part in the tie-break. -/
theorem claim3_intra_column_order (boxes : List (ℚ × ℚ × ℚ × ℚ)) (texts : List String) :
    ∀ col ∈ sortedColumns boxes texts,
      col.Pairwise (fun a b =>
        a.center_y < b.center_y ∨ (a.center_y = b.center_y ∧ a.index < b.index)) := by
  intro col hcol
  unfold sortedColumns at hcol
  rcases List.mem_map.mp hcol with ⟨col0, hcol0, rfl⟩
  have hcol1 : col0 ∈ cluster_columns_dbscan (build_text_boxes boxes texts) :=
    (sortByKey_perm _ _).mem_iff.mp hcol0
  have hpw : col0.Pairwise IdxLt :=
    cluster_columns_pairwise_index _ (build_text_boxes_pairwise boxes texts) col0 hcol1
  exact sortByKey_pairwise_lex TextBox.center_y TextBox.index col0 hpw

set_option maxRecDepth 8000 in
/-- Witness for `claim3_intra_column_order` at the singleton input. -/
theorem claim3_intra_column_order_witness :
    [tbW] ∈ sortedColumns boxesW textsW ∧
    ([tbW] : List TextBox).Pairwise (fun a b =>
      a.center_y < b.center_y ∨ (a.center_y = b.center_y ∧ a.index < b.index)) := by
  have hmem : [tbW] ∈ sortedColumns boxesW textsW := by with_unfolding_all decide
  exact ⟨hmem, claim3_intra_column_order boxesW textsW [tbW] hmem⟩

set_option maxRecDepth 8000 in
/-- C4 counterexample: on the Scenario C input the clusterer returns two columns, not the
single column of all six elements the claim predicts. -/
theorem claim4_counterexample : (cluster_columns_dbscan tbsC).length = 2 := by
  with_unfolding_all decide

set_option maxRecDepth 8000 in
/-- C4 amended: with `min_samples = 1` no point is classified as noise — every DBSCAN
label is a nonnegative cluster id, so the `find_nearest_cluster` reassignment branch is
never taken — and the Scenario C outlier forms its own singleton cluster: the output is
two columns, the five near points together and the outlier alone. -/
theorem claim4_outlier_column :
    (cluster_columns_dbscan tbsC).map (List.map TextBox.text)
        = [["a", "b", "c", "d", "e"], ["z"]] ∧
    dbscanLabels 120 (tbsC.map TextBox.center_x) = [0, 0, 0, 0, 0, 1] ∧
    ∀ (eps : ℚ) (xs : List ℚ), ((dbscanLabels eps xs).all fun l => 0 ≤ l) = true := by
  refine ⟨by with_unfolding_all decide, by with_unfolding_all decide, ?_⟩
  intro eps xs
  rw [List.all_eq_true]
  intro x hx
  rw [decide_eq_true_eq]
  simp only [dbscanLabels] at hx
  rcases List.mem_map.mp hx with ⟨m, hm, rfl⟩
  exact Int.natCast_nonneg _

/-- C5 counterexample: the standalone pipeline raises on empty input (sklearn's
ValueError on an empty array propagates — there is no try/except in PaddleOCR.py). -/
theorem claim5_counterexample :
    sort_text_with_bbox_standalone [] [] = Except.error "ValueError: empty input array" := rfl

/-- C5 amended: the service pipeline returns normally on empty input — empty text list,
empty full text, overall confidence 0 — but via the exception-fallback path, whose
internal column list is `[[]]` (a single empty column), not `[]`. -/
theorem claim5_empty_input :
    sort_text_with_bbox [] [] = [] ∧ full_text [] [] = "" ∧
    cluster_columns_dbscan [] = [[]] ∧ confidence_score [] = 0 := by
  exact ⟨rfl, rfl, rfl, rfl⟩

/-- C6 counterexample: a detection with an empty coordinate sequence is not dropped and
raises nothing: it stays in the words list with the substitute geometry
`bbox = [0, 0, 100, 20]`, center `(50, 10)`. -/
theorem claim6_counterexample :
    words_data [badW] =
      [{ text := "x", confidence := 9 / 10, polygon := [], bbox := [0, 0, 100, 20],
         center_x := 50, center_y := 10 }] := by
  with_unfolding_all decide

/-- C6 amended: the normalizer never fails and never drops a detection: every input word
yields exactly one output entry, and a word whose coordinate sequence is shorter than 8
values is kept with the substitute default geometry `bbox = [0, 0, 100, 20]`,
center `(50, 10)`. -/
theorem claim6_substitute_geometry (ws : List AWord) (w : AWord)
    (h : w.polygon.length < 8) :
    (words_data ws).length = ws.length ∧
    extract_word_data w =
      { text := w.content, confidence := w.confidence, polygon := w.polygon,
        bbox := [0, 0, 100, 20], center_x := 50, center_y := 10 } ∧
    ∀ v ∈ ws, extract_word_data v ∈ words_data ws := by
  refine ⟨by simp [words_data], ?_, fun v hv => List.mem_map_of_mem _ hv⟩
  unfold extract_word_data
  rw [if_neg (by omega)]

/-- Witness for `claim6_substitute_geometry` at the empty-polygon word. -/
theorem claim6_substitute_geometry_witness :
    badW.polygon.length < 8 ∧
    ((words_data [badW]).length = ([badW] : List AWord).length ∧
      extract_word_data badW =
        { text := badW.content, confidence := badW.confidence, polygon := badW.polygon,
          bbox := [0, 0, 100, 20], center_x := 50, center_y := 10 } ∧
      ∀ v ∈ ([badW] : List AWord), extract_word_data v ∈ words_data [badW]) :=
  ⟨by decide, claim6_substitute_geometry [badW] badW (by decide)⟩

set_option maxRecDepth 8000 in
/-- C7 counterexample: calling the sequential clusterer with a negative threshold raises
nothing (no ConfigurationError exists anywhere in the source); it returns normally, with
every word in its own singleton line. -/
theorem claim7_counterexample :
    group_words_by_vertical_lines (-1) [waL, wbR] = [[waL], [wbR]] := by
  with_unfolding_all decide

/-- C7 amended: no parameter validation exists. The density path's eps is the hard-coded
constant 120 (not a caller parameter), and `group_words_by_vertical_lines` accepts any
threshold: for a negative threshold the within-threshold test `|x − mean| ≤ t` is never
true, so every word becomes its own singleton line, in ascending x order. -/
theorem claim7_negative_threshold (t : ℚ) (ht : t < 0) (ws : List AWord) :
    group_words_by_vertical_lines t ws = (sortByKey x0 ws).map fun w => [w] := by
  unfold group_words_by_vertical_lines
  cases hs : sortByKey x0 ws with
  | nil => simp
  | cons w rest =>
    show seqGo t rest [w] [] = List.map (fun w => [w]) (w :: rest)
    rw [seqGo_neg t ht rest [w] []]
    have hw : sortByKey y0 [w] = [w] := rfl
    simp [hw]

/-- Witness for `claim7_negative_threshold` at threshold −1. -/
theorem claim7_negative_threshold_witness :
    (-1 : ℚ) < 0 ∧ group_words_by_vertical_lines (-1) [waL, wbR] =
      (sortByKey x0 [waL, wbR]).map fun w => [w] :=
  ⟨by norm_num, claim7_negative_threshold (-1) (by norm_num) [waL, wbR]⟩

set_option maxRecDepth 8000 in
/-- C8 counterexample: the grouping key is `polygon[0]`, not `center_x`. On `wA8, wB8`
with threshold 50 the code yields a single line of both words, while the claim's
center_x-keyed algorithm yields two lines in the opposite order. -/
theorem claim8_counterexample :
    (group_words_by_vertical_lines 50 [wA8, wB8]).map (List.map AWord.content)
        = [["A", "B"]] ∧
    (seq_group_claim 50 [wA8, wB8]).map (List.map AWord.content) = [["B"], ["A"]] := by
  exact ⟨by with_unfolding_all decide, by with_unfolding_all decide⟩

/-- C8 amended: the sequential strategy sorts ascending by the FIRST POLYGON VERTEX's
x-coordinate (not center_x) and appends to the running line iff that coordinate is within
the threshold of the line's running mean of the same coordinate; each closed line is then
sorted by the first vertex's y-coordinate. -/
theorem claim8_sequential_grouping (t : ℚ) (ws : List AWord) :
    group_words_by_vertical_lines t ws =
      (seq_group_amended_spec t ws).map (sortByKey y0) := by
  unfold group_words_by_vertical_lines seq_group_amended_spec
  cases sortByKey x0 ws with
  | nil => rfl
  | cons w rest => simpa using seqGo_eq_spec t rest [w] []

set_option maxRecDepth 8000 in
/-- C9: Scenario A end-to-end: two columns, rightmost (mean 502.5) first with texts
天 then 下, then the column of 太 (mean 10); the flattened text is 天下太 with no
separators. -/
theorem claim9_scenario_a :
    (sortedColumns boxesA textsA).map (List.map TextBox.text) = [["天", "下"], ["太"]] ∧
    (sortedColumns boxesA textsA).map meanX = [1005 / 2, 10] ∧
    sort_text_with_bbox boxesA textsA = ["天", "下", "太"] ∧
    full_text boxesA textsA = "天下太" := by
  exact ⟨by with_unfolding_all decide, by with_unfolding_all decide,
    by with_unfolding_all decide, by with_unfolding_all decide⟩

/-- C10: for every nonempty words list, both result processors return the empty fallback:
the `group_words_by_lines` attribute lookup fails (the processor class defines only
`sort_words_vertical_reading` and `calculate_confidence_stats`), and the except handler
converts the AttributeError into the empty result. -/
theorem claim10_missing_method_fallback (words : List WordData) (h : words ≠ []) :
    process_azure_words words = emptyProcessed ∧
    process_paddle_words words = emptyProcessed := by
  unfold process_azure_words process_paddle_words group_words_by_lines_attr
  rw [if_neg h]
  exact ⟨rfl, rfl⟩

/-- Witness for `claim10_missing_method_fallback` at a singleton words list. -/
theorem claim10_missing_method_fallback_witness :
    ([wdW] : List WordData) ≠ [] ∧
    (process_azure_words [wdW] = emptyProcessed ∧
      process_paddle_words [wdW] = emptyProcessed) :=
  ⟨by decide, claim10_missing_method_fallback [wdW] (by decide)⟩

end FiveEyes
